import Mathlib

/-!
Verification of the elevator-optimization simulator.

Shallow embedding of the Rust sources (src/person.rs, src/people.rs,
src/floor.rs, src/floors.rs, src/elevator.rs, src/elevators.rs,
src/building.rs, src/controller.rs, src/main.rs) and proofs of the
specification claims about them.

Modelling conventions:
* `usize` counters and floor indices become `Nat`; the one place where an
  unsigned subtraction can underflow (`Elevator::update_floor`) is modelled
  with `Option`, `none` standing for the Rust panic.
* `f64` quantities (probabilities, energies, running averages) become `Rat`;
  the code's explicit zero-denominator guard is modelled as written, so the
  NaN-avoidance branch is visible in the model.
* The random source is externalized: each sampling operation takes the drawn
  value as an explicit argument, as the spec directs for the core.
* Fallible operations (Rust `unwrap`/panicking indexing) return `Option`.

The `Person` struct in src/person.rs predates its callers: the fields
`p_out`, `wait_time` and `is_leaving` and the methods `gen_is_leaving`,
`increment_wait_time` and `reset_wait_time` are referenced from
src/floor.rs and src/people.rs but absent from src/person.rs.  Those
members are modelled from the spec (see the doc comments below); everything
else is translated from the source files.
-/

namespace ElevatorSim

/-- Person (src/person.rs:15 plus the members used by src/people.rs and
src/floor.rs).  Fields `floor_on`, `floor_to`, `is_on_elevator` are from
src/person.rs.  Modelled from the spec: the fields `p_out` (the Bernoulli
parameter of `dst_out`, spec: fixed per-occupant departure probability),
`wait_time` (spec: non-negative counter) and `is_leaving` (spec: sticky
leaving flag), which the callers in src/floor.rs and src/people.rs use but
which are missing from src/person.rs. -/
structure Person where
  floor_on : Nat
  floor_to : Nat
  p_out : Rat
  wait_time : Nat
  is_on_elevator : Bool
  is_leaving : Bool
  deriving Repr, DecidableEq

/-- Person::is_waiting (src/person.rs:74): waiting iff the current and
destination floors differ and the person is not on the elevator. -/
def Person.isWaiting (p : Person) : Bool :=
  (p.floor_on != p.floor_to) && !p.is_on_elevator

/-- Person::set_on_elevator (src/person.rs:115). -/
def Person.setOnElevator (p : Person) (b : Bool) : Person :=
  { p with is_on_elevator := b }

/-- Person::set_floor_on (src/person.rs:124). -/
def Person.setFloorOn (p : Person) (f : Nat) : Person :=
  { p with floor_on := f }

/-- Person::is_leaving (src/person.rs:61): sample the departure
distribution; if the draw is true, set the destination floor to 0.  The
Bernoulli draw is passed in explicitly.  Returns the updated person and the
drawn boolean. -/
def Person.isLeavingSample (p : Person) (draw : Bool) : Person × Bool :=
  if draw then ({ p with floor_to := 0 }, draw) else (p, draw)

/-- Modelled from the spec: `Person::gen_is_leaving`, called from
src/floor.rs:96 but missing from src/person.rs.  Spec 4.1 sampleDeparture:
no-op if already leaving (returns prior state, unchanged destination);
otherwise draws Bernoulli(departureProbability); on true sets leaving=true
and destinationFloor=0. -/
def Person.genIsLeaving (p : Person) (draw : Bool) : Person × Bool :=
  if p.is_leaving then (p, true)
  else if draw then ({ p with is_leaving := true, floor_to := 0 }, true)
  else (p, false)

/-- Modelled from the spec: `Person::increment_wait_time`, called from
src/people.rs:156 and src/floor.rs:224 but missing from src/person.rs.
Spec 4.1 tick(): waitTime += 1. -/
def Person.incrementWaitTime (p : Person) : Person :=
  { p with wait_time := p.wait_time + 1 }

/-- Modelled from the spec: `Person::reset_wait_time`, called from
src/people.rs:167 and src/floor.rs:241 but missing from src/person.rs.
Spec 4.1 resolveArrival(): waitTime reset to 0. -/
def Person.resetWaitTime (p : Person) : Person :=
  { p with wait_time := 0 }

/-- person::from (src/person.rs:34): floor_on = 0, floor_to drawn uniformly
from [0, num_floors).  `Uniform::new(0, num_floors)` panics when
num_floors = 0 and `Bernoulli::new(p_out).unwrap()` panics when
p_out is outside [0,1]; both panics are modelled as `none`.  The uniform
draw is passed in as a natural number and reduced mod num_floors. -/
def personFrom (p_out : Rat) (num_floors : Nat) (floor_draw : Nat) :
    Option Person :=
  if num_floors = 0 then none
  else if 0 ≤ p_out ∧ p_out ≤ 1 then
    some { floor_on := 0, floor_to := floor_draw % num_floors,
           p_out := p_out, wait_time := 0,
           is_on_elevator := false, is_leaving := false }
  else none

/-! ## The People trait for Vec<Person> (src/people.rs) -/

/-- People::get_num_people for Vec<Person> (src/people.rs:51). -/
def getNumPeople (people : List Person) : Nat := people.length

/-- People::get_num_people_waiting for Vec<Person> (src/people.rs:61):
count the people whose current floor differs from their destination. -/
def getNumPeopleWaiting (people : List Person) : Nat :=
  (people.filter (fun p => p.floor_on != p.floor_to)).length

/-- People::get_aggregate_wait_time for Vec<Person> (src/people.rs:85). -/
def getAggregateWaitTime (people : List Person) : Nat :=
  people.foldl (fun acc p => acc + p.wait_time) 0

/-- People::are_people_going_to_floor for Vec<Person> (src/people.rs:104). -/
def arePeopleGoingToFloor (people : List Person) (floor_index : Nat) : Bool :=
  people.any (fun p => p.floor_to == floor_index)

/-- People::are_people_waiting for Vec<Person> (src/people.rs:129). -/
def arePeopleWaiting (people : List Person) : Bool :=
  people.any (fun p => p.floor_on != p.floor_to)

/-- People::reset_wait_times for Vec<Person> (src/people.rs:164): resets
every person in the collection. -/
def resetWaitTimes (people : List Person) : List Person :=
  people.map Person.resetWaitTime

/-! ## Floor (src/floor.rs) -/

/-- Floor struct (src/floor.rs:14). -/
structure Floor where
  people : List Person
  dest_prob : Rat
  deriving Repr, DecidableEq

/-- Floor::new (src/floor.rs:33). -/
def Floor.new : Floor := { people := [], dest_prob := 0 }

/-- The inner product over past p_out values inside Floor::get_p_out
(src/floor.rs:60): `tmp_inverse_p_outs = Π (1 - past_p_out)`. -/
def inversePOuts (past : List Rat) : Rat :=
  past.foldl (fun t q => t * (1 - q)) 1

/-- The loop of Floor::get_p_out (src/floor.rs:57): iteratively add
`p_i * Π_(j before i) (1 - p_j)` while accumulating the list of past
probabilities. -/
def getPOutLoop (ps : List Rat) : Rat :=
  (ps.foldl
    (fun (acc : Rat × List Rat) p =>
      (acc.1 + p * inversePOuts acc.2, acc.2 ++ [p]))
    (0, [])).1

/-- Floor::get_p_out (src/floor.rs:45): 0 for an empty floor, otherwise the
iterative inclusion-exclusion sum over the occupants' p_out values. -/
def Floor.getPOut (fl : Floor) : Rat :=
  if fl.people.length = 0 then 0
  else getPOutLoop (fl.people.map Person.p_out)

/-- One iteration of the removal loops in
Floor::flush_people_entering_elevator (src/floor.rs:111) and
Elevator::flush_people_leaving_elevator (src/elevator.rs:212).  The state
is (current vector, removals counter, accumulated removed people); the
iteration reads index `i - removals`, leaves the state alone when
`remove?` is false, and otherwise removes that element, applies `post`
to it (the elevator loop calls set_on_elevator(false) on removed people,
the floor loop does not) and appends it.  The out-of-bounds read that
Rust would panic on is `none`. -/
def drainStep (remove? : Person → Bool) (post : Person → Person)
    (st : List Person × Nat × List Person) (i : Nat) :
    Option (List Person × Nat × List Person) := do
  let p ← st.1.get? (i - st.2.1)
  if remove? p then
    pure (st.1.eraseIdx (i - st.2.1), st.2.1 + 1, st.2.2 ++ [post p])
  else
    pure st

/-- The full removal loop: iterate `drainStep` over i = 0 .. len-1 where
len is the vector length before the loop, as in the Rust
`for i in 0..self.people.len()`. -/
def drainLoop (remove? : Person → Bool) (post : Person → Person)
    (people : List Person) : Option (List Person × Nat × List Person) :=
  (List.range people.length).foldlM (drainStep remove? post) (people, 0, [])

/-- Floor::flush_people_entering_elevator (src/floor.rs:105): remove and
return the waiting people (floor_on ≠ floor_to); people with
floor_on = floor_to are skipped.  Returns the updated floor and the people
removed, in their original order. -/
def Floor.flushPeopleEnteringElevator (fl : Floor) :
    Option (Floor × List Person) := do
  let st ← drainLoop (fun p => p.floor_on != p.floor_to) id fl.people
  pure ({ fl with people := st.1 }, st.2.2)

/-- Floor::flush_people_leaving_floor (src/floor.rs:136): retain only the
people whose is_leaving flag is false. -/
def Floor.flushPeopleLeavingFloor (fl : Floor) : Floor :=
  { fl with people := fl.people.filter (fun p => !p.is_leaving) }

/-- Extend for Floor (src/floor.rs:147): push each person. -/
def Floor.extendWith (fl : Floor) (newcomers : List Person) : Floor :=
  { fl with people := fl.people ++ newcomers }

/-- Floor::are_people_waiting via the People impl (src/floor.rs:207,
src/people.rs:129). -/
def Floor.arePeopleWaiting (fl : Floor) : Bool :=
  ElevatorSim.arePeopleWaiting fl.people

/-! ## Elevator (src/elevator.rs) -/

/-- Elevator struct (src/elevator.rs:15). -/
structure Elevator where
  people : List Person
  energy_up : Rat
  energy_down : Rat
  energy_coef : Rat
  floor_on : Nat
  moving_up : Bool
  stopped : Bool
  deriving Repr, DecidableEq

/-- elevator::from (src/elevator.rs:34): empty, on floor 0, not moving up,
stopped. -/
def elevatorFrom (energy_up energy_down energy_coef : Rat) : Elevator :=
  { people := [], energy_up := energy_up, energy_down := energy_down,
    energy_coef := energy_coef, floor_on := 0,
    moving_up := false, stopped := true }

/-- Elevator::get_energy_spent (src/elevator.rs:62): 0 when stopped, else
the directional base energy plus energy_coef per person aboard. -/
def Elevator.getEnergySpent (e : Elevator) : Rat :=
  if e.stopped then 0
  else if e.moving_up then
    e.energy_up + e.energy_coef * (e.people.length : Rat)
  else
    e.energy_down + e.energy_coef * (e.people.length : Rat)

/-- Elevator::are_people_going_to_floor (src/elevator.rs:115). -/
def Elevator.arePeopleGoingToFloor (e : Elevator) (floor_index : Nat) : Bool :=
  e.people.any (fun p => p.floor_to == floor_index)

/-- Elevator::update_floor (src/elevator.rs:141): return early when
stopped; otherwise increment the floor when moving up, decrement it
otherwise — `floor_on - 1` on usize panics when floor_on = 0, modelled as
`none` — then set every rider's floor_on to the new floor. -/
def Elevator.updateFloor (e : Elevator) : Option Elevator :=
  if e.stopped then some e
  else if e.moving_up then
    let f := e.floor_on + 1
    some { e with floor_on := f,
                  people := e.people.map (fun p => p.setFloorOn f) }
  else if e.floor_on = 0 then none
  else
    let f := e.floor_on - 1
    some { e with floor_on := f,
                  people := e.people.map (fun p => p.setFloorOn f) }

/-- Elevator::get_dest_floors (src/elevator.rs:186). -/
def Elevator.getDestFloors (e : Elevator) : List Nat :=
  e.people.map Person.floor_to

/-- Elevator::flush_people_leaving_elevator (src/elevator.rs:206): remove
and return the riders whose floor_on equals their floor_to, setting
is_on_elevator to false on each removed rider. -/
def Elevator.flushPeopleLeavingElevator (e : Elevator) :
    Option (Elevator × List Person) := do
  let st ← drainLoop (fun p => p.floor_on == p.floor_to)
      (fun p => p.setOnElevator false) e.people
  pure ({ e with people := st.1 }, st.2.2)

/-- Extend for Elevator (src/elevator.rs:231): push each person, with no
change to the pushed people's fields. -/
def Elevator.extendWith (e : Elevator) (newcomers : List Person) : Elevator :=
  { e with people := e.people ++ newcomers }

/-! ## The Floors trait for Vec<Floor> (src/floors.rs) -/

/-- Floors::are_people_waiting_on_floor (src/floors.rs:30): Rust indexes
`self[floor_index]`, which panics out of bounds; modelled with get?,
defaulting to false only where the source would panic. -/
def arePeopleWaitingOnFloor (floors : List Floor) (floor_index : Nat) :
    Option Bool :=
  (floors.get? floor_index).map Floor.arePeopleWaiting

/-- The accumulator update shared by the nearest-floor searches
(src/floors.rs:56 and the inline loop in src/main.rs:118): compute the
absolute distance from `pos` to candidate `i` with branching usize
subtraction, and replace the running (nearest, min-distance) pair when the
running distance is still the 0 sentinel or the new distance is smaller. -/
def nearestAux (pos : Nat) (acc : Nat × Nat) (i : Nat) : Nat × Nat :=
  let d := if pos > i then pos - i else i - pos
  if acc.2 = 0 ∨ d < acc.2 then (i, d) else acc

/-- The enumerated loop of Floors::get_nearest_wait_floor
(src/floors.rs:47): walk the floors with their indices, skipping floors
with nobody waiting and folding `nearestAux` over the rest. -/
def nearestWaitLoop (pos : Nat) : Nat → List Floor → Nat × Nat → Nat × Nat
  | _, [], acc => acc
  | i, fl :: rest, acc =>
      nearestWaitLoop pos (i + 1) rest
        (if fl.arePeopleWaiting then nearestAux pos acc i else acc)

/-- Floors::get_nearest_wait_floor (src/floors.rs:39): starting from the
(0, 0) sentinel, return the (floor, distance) pair left by the loop. -/
def getNearestWaitFloor (floors : List Floor) (floor_on : Nat) : Nat × Nat :=
  nearestWaitLoop floor_on 0 floors (0, 0)

/-- Floors::flush_first_floor (src/floors.rs:110): flush the people
leaving the building from floor 0.  Rust indexes `self[0]`, panicking on
an empty vector; modelled as the identity only in that panicking case is
avoided by returning `none`. -/
def flushFirstFloor (floors : List Floor) : Option (List Floor) := do
  let fl ← floors.get? 0
  pure (floors.set 0 fl.flushPeopleLeavingFloor)

/-! ## Building (src/building.rs) -/

/-- The probability a person leaves per step (src/building.rs:16). -/
def pOutConst : Rat := 1 / 20

/-- Building struct (src/building.rs:29).  The Poisson distribution
`dst_in` is determined by its rate `p_in`, so only the rate is stored. -/
structure Building where
  elevators : List Elevator
  floors : List Floor
  avg_energy : Rat
  avg_wait_time : Rat
  wait_time_denom : Nat
  p_in : Rat
  deriving Repr, DecidableEq

/-- statrs Poisson::new, called with unwrap in src/building.rs:80: errors
(so the unwrap panics, modelled as none) when the rate is not positive. -/
def poissonNew (lambda : Rat) : Option Rat :=
  if lambda ≤ 0 then none else some lambda

/-- Building::from (src/building.rs:55): build num_floors empty floors and
num_elevators fresh elevators, then `Poisson::new(p_in).unwrap()` — the
only construction-time validation; its panic is the `none` case. -/
def buildingFrom (num_floors num_elevators : Nat) (p_in : Rat)
    (energy_up energy_down energy_coef : Rat) : Option Building := do
  let floors := List.replicate num_floors Floor.new
  let elevators :=
    List.replicate num_elevators (elevatorFrom energy_up energy_down energy_coef)
  let _ ← poissonNew p_in
  pure { floors := floors, elevators := elevators, avg_energy := 0,
         avg_wait_time := 0, wait_time_denom := 0, p_in := p_in }

/-- Building::gen_people_arriving (src/building.rs:142): the Poisson draw
is externalized as the arrival count together with one uniform draw per
arrival; each arrival is a fresh person on floor 0 built with
person::from(P_OUT, floors.len(), rng), whose panic (zero floors) is
propagated.  The new people are pushed onto the first floor; Rust indexes
`self.floors[0]`, which panics when there are no floors. -/
def Building.genPeopleArriving (b : Building) (floor_draws : List Nat) :
    Option Building := do
  let arrivals ← floor_draws.mapM (fun d => personFrom pOutConst b.floors.length d)
  let fl0 ← b.floors.get? 0
  pure { b with floors := b.floors.set 0 (fl0.extendWith arrivals) }

/-- The running-average update for wait times inside
Building::exchange_people_on_elevator (src/building.rs:181): weighted mean
of the alighted people's wait times with the prior average, short-circuited
to 0 when the denominator is 0. -/
def updateAvgWaitTime (avg : Rat) (denom : Nat) (wait_times num_people : Nat) :
    Rat :=
  let tmp_num : Rat := (wait_times : Rat) + avg * (denom : Rat)
  let tmp_denom : Rat := (num_people : Rat) + (denom : Rat)
  if tmp_denom = 0 then 0 else tmp_num / tmp_denom

/-- The body of the per-elevator loop in
Building::exchange_people_on_elevator (src/building.rs:165): skip moving
elevators; otherwise flush the waiting people off the elevator's floor and
the arrived riders off the elevator, fold the alighted wait times into the
running average, reset the alighted people's wait times, extend the
elevator with the boarders and the floor with the alighted.  The state
carries (floors, avg_wait_time, wait_time_denom); Rust's indexing of
`self.floors[floor_index]` panics out of bounds, modelled by get?. -/
def exchangeStep (st : List Floor × Rat × Nat) (e : Elevator) :
    Option ((List Floor × Rat × Nat) × Elevator) := do
  if !e.stopped then
    pure (st, e)
  else
    let floor_index := e.floor_on
    let fl ← st.1.get? floor_index
    let (fl1, people_leaving_floor) ← fl.flushPeopleEnteringElevator
    let (e1, people_leaving_elevator) ← e.flushPeopleLeavingElevator
    let wait_times := getAggregateWaitTime people_leaving_elevator
    let num_people := getNumPeople people_leaving_elevator
    let avg1 := updateAvgWaitTime st.2.1 st.2.2 wait_times num_people
    let denom1 := st.2.2 + num_people
    let people_leaving_elevator1 := resetWaitTimes people_leaving_elevator
    let e2 := e1.extendWith people_leaving_floor
    let fl2 := fl1.extendWith people_leaving_elevator1
    pure ((st.1.set floor_index fl2, avg1, denom1), e2)

/-- Building::exchange_people_on_elevator (src/building.rs:164): run
`exchangeStep` across the elevators in order, threading the floors and the
wait-time statistics. -/
def Building.exchangePeopleOnElevator (b : Building) : Option Building := do
  let (st, elevators) ←
    b.elevators.foldlM
      (fun (acc : (List Floor × Rat × Nat) × List Elevator) e => do
        let (st1, e1) ← exchangeStep acc.1 e
        pure (st1, acc.2 ++ [e1]))
      ((b.floors, b.avg_wait_time, b.wait_time_denom), [])
  pure { b with floors := st.1, avg_wait_time := st.2.1,
                wait_time_denom := st.2.2, elevators := elevators }

/-! ## NearestController (src/controller.rs) -/

/-- Modelled from the spec: `Elevator::get_nearest_dest_floor`, called from
src/controller.rs:146 but missing from src/elevator.rs.  Spec 4.3
nearestRideTarget(): among aboard occupants, the destination floor
minimizing the distance to the current floor; the (floor, distance) pair
with the (0, 0) = none sentinel follows the inline implementation of the
same search in src/main.rs:106-133 and the twin search in
src/floors.rs:39. -/
def Elevator.getNearestDestFloor (e : Elevator) : Nat × Nat :=
  (e.people.map Person.floor_to).foldl (nearestAux e.floor_on) (0, 0)

/-- The decision phase of NearestController::update_elevators
(src/controller.rs:142-211) for one elevator: 1 = move up, -1 = move
down, 0 = stop.  A stopped elevator heads for the nearest rider
destination when one is found at nonzero distance, else for the nearest
waiting floor at nonzero distance, else stays stopped.  A moving elevator
stops at the boundary floors, or when its floor has waiting people, or
when a rider wants off here; otherwise it keeps its direction.
The waiting-floor lookup indexes `self[floor_index]`, whose potential
panic is propagated. -/
def nearestDecision (floors : List Floor) (e : Elevator) : Option Int := do
  if e.stopped then
    let ndf := e.getNearestDestFloor
    if ndf.2 ≠ 0 then
      if ndf.1 > e.floor_on then pure 1 else pure (-1)
    else
      let nwf := getNearestWaitFloor floors e.floor_on
      if nwf.2 ≠ 0 then
        if nwf.1 > e.floor_on then pure 1 else pure (-1)
      else
        pure 0
  else
    if !e.moving_up && e.floor_on == 0 then pure 0
    else if e.moving_up && e.floor_on == floors.length - 1 then pure 0
    else do
      let waiting_here ← arePeopleWaitingOnFloor floors e.floor_on
      if waiting_here then pure 0
      else if e.arePeopleGoingToFloor e.floor_on then pure 0
      else if e.moving_up then pure 1
      else pure (-1)

/-- The application phase of NearestController::update_elevators
(src/controller.rs:214-228) for one elevator: commit the decided
stopped/moving_up flags, then call update_floor (whose usize underflow
panic is propagated). -/
def applyDecision (e : Elevator) (d : Int) : Option Elevator :=
  let e1 :=
    if d > 0 then { e with stopped := false, moving_up := true }
    else if d < 0 then { e with stopped := false, moving_up := false }
    else { e with stopped := true }
  e1.updateFloor

/-- NearestController::update_elevators (src/controller.rs:137): compute
every elevator's decision against the pre-step building, then apply the
decisions elevator by elevator. -/
def nearestUpdateElevators (b : Building) : Option Building := do
  let decisions ← b.elevators.mapM (nearestDecision b.floors)
  let elevators ← (b.elevators.zip decisions).mapM
      (fun ed => applyDecision ed.1 ed.2)
  pure { b with elevators := elevators }

/-- Modelled from the spec: the per-step ordering of exchange and
ground-floor egress (spec 4.4 phase 3: for each stopped car, boarding then
alighting, and, on floor 0, drainEgress afterwards).  The driver that
sequences Building::exchange_people_on_elevator and
Floors::flush_first_floor in the multi-elevator architecture is not under
src/ (src/main.rs is the earlier single-elevator driver), so only this
composition order comes from the spec; both composed operations are the
source translations above. -/
def Building.exchangeThenEgress (b : Building) : Option Building := do
  let b1 ← b.exchangePeopleOnElevator
  let floors ← flushFirstFloor b1.floors
  pure { b1 with floors := floors }

/-! ## Lemmas: Floor::get_p_out (claim C3) -/

lemma inversePOuts_nil : inversePOuts [] = 1 := rfl

lemma inversePOuts_append (past : List Rat) (p : Rat) :
    inversePOuts (past ++ [p]) = inversePOuts past * (1 - p) := by
  simp [inversePOuts, List.foldl_append]

lemma getPOutFold (ps : List Rat) : ∀ (s : Rat) (past : List Rat),
    (ps.foldl
        (fun (acc : Rat × List Rat) p =>
          (acc.1 + p * inversePOuts acc.2, acc.2 ++ [p]))
        (s, past)).1
      = s + inversePOuts past * (1 - (ps.map (fun p => 1 - p)).prod) := by
  induction ps with
  | nil => intro s past; simp
  | cons p rest ih =>
      intro s past
      simp only [List.foldl_cons, List.map_cons, List.prod_cons]
      rw [ih, inversePOuts_append]
      ring

lemma getPOutLoop_closed (ps : List Rat) :
    getPOutLoop ps = 1 - (ps.map (fun p => 1 - p)).prod := by
  unfold getPOutLoop
  rw [getPOutFold]
  simp [inversePOuts_nil]

lemma Floor.getPOut_closed (fl : Floor) :
    fl.getPOut = 1 - (fl.people.map (fun p => 1 - p.p_out)).prod := by
  unfold Floor.getPOut
  rcases h : fl.people with _ | ⟨p, rest⟩
  · simp
  · rw [if_neg (by simp), getPOutLoop_closed, List.map_map]
    rfl

lemma list_prod_unit {l : List Rat} (h : ∀ x ∈ l, 0 ≤ x ∧ x ≤ 1) :
    0 ≤ l.prod ∧ l.prod ≤ 1 := by
  induction l with
  | nil => simp
  | cons a t ih =>
      have ha := h a (by simp)
      have ht := ih (fun x hx => h x (by simp [hx]))
      rw [List.prod_cons]
      exact ⟨mul_nonneg ha.1 ht.1, mul_le_one₀ ha.2 ht.1 ht.2⟩

/-- C3: Floor::get_p_out returns 1 − Π(1−pᵢ) over the occupants'
individual departure probabilities; it is 0 for an empty floor, lies in
[0,1] whenever every pᵢ does, and is invariant under permutation of the
occupants. -/
theorem C3_composite_departure_probability (fl : Floor) :
    fl.getPOut = 1 - (fl.people.map (fun p => 1 - p.p_out)).prod
    ∧ (fl.people = [] → fl.getPOut = 0)
    ∧ ((∀ p ∈ fl.people, 0 ≤ p.p_out ∧ p.p_out ≤ 1) →
        0 ≤ fl.getPOut ∧ fl.getPOut ≤ 1)
    ∧ (∀ fl2 : Floor, fl.people.Perm fl2.people → fl.getPOut = fl2.getPOut) := by
  refine ⟨fl.getPOut_closed, ?_, ?_, ?_⟩
  · intro h
    simp [Floor.getPOut, h]
  · intro hb
    rw [fl.getPOut_closed]
    have : ∀ x ∈ fl.people.map (fun p => 1 - p.p_out), 0 ≤ x ∧ x ≤ 1 := by
      intro x hx
      rcases List.mem_map.mp hx with ⟨p, hp, rfl⟩
      have := hb p hp
      constructor <;> linarith [this.1, this.2]
    have hprod := list_prod_unit this
    constructor <;> linarith [hprod.1, hprod.2]
  · intro fl2 hperm
    rw [fl.getPOut_closed, fl2.getPOut_closed]
    rw [List.Perm.prod_eq (hperm.map (fun p => 1 - p.p_out))]

def exPersonA : Person :=
  { floor_on := 0, floor_to := 0, p_out := 1/2, wait_time := 0,
    is_on_elevator := false, is_leaving := false }

def exPersonB : Person :=
  { floor_on := 0, floor_to := 0, p_out := 1/3, wait_time := 0,
    is_on_elevator := false, is_leaving := false }

def exFloorA : Floor := { people := [exPersonA, exPersonB], dest_prob := 0 }

def exFloorB : Floor := { people := [exPersonB, exPersonA], dest_prob := 0 }

/-- Witness for C3 at a concrete two-person floor: the bounds hypothesis
holds for probabilities 1/2 and 1/3 and the two occupant orders agree. -/
theorem C3_composite_departure_probability_witness :
    (0 ≤ exFloorA.getPOut ∧ exFloorA.getPOut ≤ 1)
    ∧ exFloorA.getPOut = exFloorB.getPOut :=
  ⟨(C3_composite_departure_probability exFloorA).2.2.1 (by
      intro p hp
      simp only [exFloorA, List.mem_cons, List.not_mem_nil, or_false] at hp
      rcases hp with rfl | rfl <;> norm_num [exPersonA, exPersonB]),
   (C3_composite_departure_probability exFloorA).2.2.2 exFloorB (by
      show List.Perm [exPersonA, exPersonB] [exPersonB, exPersonA]
      exact List.Perm.swap exPersonB exPersonA [])⟩

/-! ## Lemmas: the removal loops (claims C7, C1, C2, C8) -/

lemma get?_append_cons (l1 l2 : List Person) (p : Person) :
    (l1 ++ p :: l2).get? l1.length = some p := by
  induction l1 with
  | nil => rfl
  | cons a t ih => simpa using ih

lemma eraseIdx_append_cons (l1 l2 : List Person) (p : Person) :
    (l1 ++ p :: l2).eraseIdx l1.length = l1 ++ l2 := by
  induction l1 with
  | nil => rfl
  | cons a t ih => simpa [List.eraseIdx] using ih

lemma drainStep_at (remove? : Person → Bool) (post : Person → Person)
    (kept rest : List Person) (p : Person) (rem : Nat) (acc : List Person) :
    drainStep remove? post (kept ++ p :: rest, rem, acc) (kept.length + rem)
      = some (if remove? p then (kept ++ rest, rem + 1, acc ++ [post p])
              else (kept ++ p :: rest, rem, acc)) := by
  simp only [drainStep, Nat.add_sub_cancel, get?_append_cons,
    eraseIdx_append_cons, Option.bind_eq_bind, Option.some_bind]
  cases remove? p <;> simp

lemma drainLoop_go (remove? : Person → Bool) (post : Person → Person) :
    ∀ (unscanned kept : List Person) (rem : Nat) (acc : List Person),
      (List.range' (kept.length + rem) unscanned.length).foldlM
          (drainStep remove? post) (kept ++ unscanned, rem, acc)
        = some (kept ++ unscanned.filter (fun p => !remove? p),
                rem + (unscanned.filter remove?).length,
                acc ++ (unscanned.filter remove?).map post) := by
  intro unscanned
  induction unscanned with
  | nil => intro kept rem acc; simp
  | cons p rest ih =>
      intro kept rem acc
      rw [List.length_cons, List.range'_succ, List.foldlM_cons, drainStep_at]
      cases hrp : remove? p with
      | true =>
          have hidx : kept.length + rem + 1 = kept.length + (rem + 1) := by omega
          rw [if_pos rfl]
          simp only [Option.bind_eq_bind, Option.some_bind]
          rw [hidx, ih kept (rem + 1) (acc ++ [post p])]
          simp [List.filter_cons, hrp]
          omega
      | false =>
          have hidx : kept.length + rem + 1 = (kept ++ [p]).length + rem := by
            simp; omega
          have hlist : kept ++ p :: rest = (kept ++ [p]) ++ rest := by simp
          rw [if_neg (by simp [hrp])]
          simp only [Option.bind_eq_bind, Option.some_bind]
          rw [hidx, hlist, ih (kept ++ [p]) rem acc]
          simp [List.filter_cons, hrp]

lemma drainLoop_eq (remove? : Person → Bool) (post : Person → Person)
    (people : List Person) :
    drainLoop remove? post people
      = some (people.filter (fun p => !remove? p),
              (people.filter remove?).length,
              (people.filter remove?).map post) := by
  have := drainLoop_go remove? post people [] 0 []
  simpa [drainLoop, List.range_eq_range'] using this

/-- Evaluated form of Floor::flush_people_entering_elevator: the floor
keeps the people with floor_on = floor_to and returns the people with
floor_on ≠ floor_to, in order. -/
lemma flushPeopleEnteringElevator_eq (fl : Floor) :
    fl.flushPeopleEnteringElevator
      = some ({ fl with people := fl.people.filter (fun p => p.floor_on == p.floor_to) },
              fl.people.filter (fun p => p.floor_on != p.floor_to)) := by
  simp only [Floor.flushPeopleEnteringElevator, drainLoop_eq,
    Option.bind_eq_bind, Option.some_bind, List.map_id]
  have h : fl.people.filter (fun p => !(p.floor_on != p.floor_to))
      = fl.people.filter (fun p => p.floor_on == p.floor_to) := by
    apply List.filter_congr
    intro p _
    cases h2 : p.floor_on == p.floor_to <;> simp_all [bne]
  rw [h]
  rfl

/-- Evaluated form of Elevator::flush_people_leaving_elevator: the
elevator keeps the riders with floor_on ≠ floor_to and returns the riders
with floor_on = floor_to with is_on_elevator cleared, in order. -/
lemma flushPeopleLeavingElevator_eq (e : Elevator) :
    e.flushPeopleLeavingElevator
      = some ({ e with people := e.people.filter (fun p => p.floor_on != p.floor_to) },
              (e.people.filter (fun p => p.floor_on == p.floor_to)).map
                (fun p => p.setOnElevator false)) := by
  simp only [Elevator.flushPeopleLeavingElevator, drainLoop_eq,
    Option.bind_eq_bind, Option.some_bind]
  have h : e.people.filter (fun p => !(p.floor_on == p.floor_to))
      = e.people.filter (fun p => p.floor_on != p.floor_to) := by
    apply List.filter_congr
    intro p _
    cases h2 : p.floor_on == p.floor_to <;> simp_all [bne]
  rw [h]
  rfl

/-- C7: Floor::flush_people_entering_elevator removes from the floor and
returns exactly the waiting occupants (floor_on ≠ floor_to): every waiting
occupant is returned, no non-waiting occupant is removed, the kept and
returned counts partition the floor, and an immediate second call returns
the empty vector. -/
theorem C7_drain_boarding_partitions (fl : Floor) :
    ∃ fl1 returned, fl.flushPeopleEnteringElevator = some (fl1, returned)
    ∧ returned = fl.people.filter (fun p => p.floor_on != p.floor_to)
    ∧ fl1.people = fl.people.filter (fun p => p.floor_on == p.floor_to)
    ∧ fl1.people.length + returned.length = fl.people.length
    ∧ fl1.flushPeopleEnteringElevator = some (fl1, []) := by
  refine ⟨_, _, flushPeopleEnteringElevator_eq fl, rfl, rfl, ?_, ?_⟩
  · have hlen := @List.length_eq_length_filter_add Person fl.people
      (fun p => p.floor_on == p.floor_to)
    have h2 : fl.people.filter (fun p => !(p.floor_on == p.floor_to))
        = fl.people.filter (fun p => p.floor_on != p.floor_to) := by
      apply List.filter_congr
      intro p _
      cases hb : p.floor_on == p.floor_to <;> simp_all [bne]
    rw [h2] at hlen
    show (fl.people.filter (fun p => p.floor_on == p.floor_to)).length
        + (fl.people.filter (fun p => p.floor_on != p.floor_to)).length
        = fl.people.length
    omega
  · rw [flushPeopleEnteringElevator_eq]
    simp only [Option.some_inj, Prod.mk.injEq, List.filter_filter]
    refine ⟨?_, ?_⟩
    · congr 1
      apply List.filter_congr
      intro p _
      cases hb : p.floor_on == p.floor_to <;> simp [hb]
    · apply List.filter_eq_nil_iff.mpr
      intro p hp
      cases hb : p.floor_on == p.floor_to <;> simp_all [bne]

/-! ## Lemmas: the sentinel nearest-floor searches (claims C4, C5) -/

/-- The absolute floor distance computed with branching usize subtraction
in src/floors.rs:56 and src/main.rs:120. -/
def natDist (pos i : Nat) : Nat := if pos > i then pos - i else i - pos

lemma nearestAux_eq (pos : Nat) (acc : Nat × Nat) (i : Nat) :
    nearestAux pos acc i
      = if acc.2 = 0 ∨ natDist pos i < acc.2 then (i, natDist pos i) else acc := rfl

lemma natDist_eq_zero_iff (pos i : Nat) : natDist pos i = 0 ↔ pos = i := by
  unfold natDist
  split <;> omega

/-- Every state reached by folding `nearestAux` is either the start state
or a (candidate, distance-to-candidate) pair for some candidate seen. -/
lemma nearestFold_cases (pos : Nat) :
    ∀ (cs : List Nat) (acc : Nat × Nat),
      cs.foldl (nearestAux pos) acc = acc
      ∨ ∃ c ∈ cs, cs.foldl (nearestAux pos) acc = (c, natDist pos c) := by
  intro cs
  induction cs with
  | nil => intro acc; exact Or.inl rfl
  | cons c rest ih =>
      intro acc
      rw [List.foldl_cons, nearestAux_eq]
      split
      · rcases ih (c, natDist pos c) with h | ⟨c2, hc2, h⟩
        · exact Or.inr ⟨c, by simp, h⟩
        · exact Or.inr ⟨c2, by simp [hc2], h⟩
      · rcases ih acc with h | ⟨c2, hc2, h⟩
        · exact Or.inl h
        · exact Or.inr ⟨c2, by simp [hc2], h⟩

/-- Folding `nearestAux` from a state clear of the 0 sentinel, over
candidates none of which sits at distance 0, only improves the tracked
minimum and ends at a distance no larger than any candidate's. -/
lemma nearestFold_min (pos : Nat) :
    ∀ (cs : List Nat) (acc : Nat × Nat), acc.2 ≠ 0 →
      (∀ c ∈ cs, natDist pos c ≠ 0) →
      (cs.foldl (nearestAux pos) acc).2 ≠ 0
      ∧ (cs.foldl (nearestAux pos) acc).2 ≤ acc.2
      ∧ (∀ c ∈ cs, (cs.foldl (nearestAux pos) acc).2 ≤ natDist pos c) := by
  intro cs
  induction cs with
  | nil => intro acc ha _; exact ⟨ha, le_refl _, by simp⟩
  | cons c rest ih =>
      intro acc ha hz
      have hdc : natDist pos c ≠ 0 := hz c (by simp)
      rw [List.foldl_cons, nearestAux_eq]
      split
      · next hcond =>
          rcases hcond with h0 | hlt
          · exact absurd h0 ha
          · have := ih (c, natDist pos c) hdc (fun x hx => hz x (by simp [hx]))
            refine ⟨this.1, le_trans this.2.1 (le_of_lt hlt), ?_⟩
            intro x hx
            rcases List.mem_cons.mp hx with rfl | hx2
            · exact this.2.1
            · exact this.2.2 x hx2
      · next hcond =>
          push_neg at hcond
          have := ih acc ha (fun x hx => hz x (by simp [hx]))
          refine ⟨this.1, this.2.1, ?_⟩
          intro x hx
          rcases List.mem_cons.mp hx with rfl | hx2
          · exact le_trans this.2.1 hcond.2
          · exact this.2.2 x hx2

/-- Folding `nearestAux` from the (0, 0) sentinel over a nonempty
candidate list with no distance-0 candidate returns a candidate at the
minimum distance. -/
lemma nearestFold_correct (pos : Nat) (cs : List Nat) (hne : cs ≠ [])
    (hz : ∀ c ∈ cs, natDist pos c ≠ 0) :
    ∃ c ∈ cs, cs.foldl (nearestAux pos) (0, 0) = (c, natDist pos c)
      ∧ ∀ c2 ∈ cs, natDist pos c ≤ natDist pos c2 := by
  rcases cs with _ | ⟨c0, rest⟩
  · exact absurd rfl hne
  · have hd0 : natDist pos c0 ≠ 0 := hz c0 (by simp)
    rw [List.foldl_cons, nearestAux_eq, if_pos (Or.inl rfl)]
    have hmin := nearestFold_min pos rest (c0, natDist pos c0) hd0
      (fun x hx => hz x (by simp [hx]))
    rcases nearestFold_cases pos rest (c0, natDist pos c0) with h | ⟨c2, hc2, h⟩
    · refine ⟨c0, by simp, h, ?_⟩
      intro x hx
      rcases List.mem_cons.mp hx with rfl | hx2
      · exact le_refl _
      · have := hmin.2.2 x hx2
        rw [h] at this
        exact this
    · refine ⟨c2, by simp [hc2], h, ?_⟩
      intro x hx
      have hle2 : natDist pos c2 ≤ (rest.foldl (nearestAux pos) (c0, natDist pos c0)).2 := by
        rw [h]
      rcases List.mem_cons.mp hx with rfl | hx2
      · exact le_trans hle2 hmin.2.1
      · exact le_trans hle2 (hmin.2.2 x hx2)

/-- The indices, counted from `i`, of the floors with somebody waiting:
the candidate list that the loop of Floors::get_nearest_wait_floor
effectively folds over. -/
def waitingIdxFrom : Nat → List Floor → List Nat
  | _, [] => []
  | i, fl :: rest =>
      (if fl.arePeopleWaiting then [i] else []) ++ waitingIdxFrom (i + 1) rest

lemma nearestWaitLoop_eq_fold (pos : Nat) :
    ∀ (fls : List Floor) (i : Nat) (acc : Nat × Nat),
      nearestWaitLoop pos i fls acc
        = (waitingIdxFrom i fls).foldl (nearestAux pos) acc := by
  intro fls
  induction fls with
  | nil => intro i acc; rfl
  | cons fl rest ih =>
      intro i acc
      rw [nearestWaitLoop, waitingIdxFrom]
      cases h : fl.arePeopleWaiting <;> simp [h, ih]

lemma mem_waitingIdxFrom :
    ∀ (fls : List Floor) (i c : Nat),
      c ∈ waitingIdxFrom i fls
      ↔ ∃ j, ∃ h : j < fls.length,
          c = i + j ∧ (fls.get ⟨j, h⟩).arePeopleWaiting = true := by
  intro fls
  induction fls with
  | nil => intro i c; simp [waitingIdxFrom]
  | cons fl rest ih =>
      intro i c
      rw [waitingIdxFrom]
      constructor
      · intro hc
        rcases List.mem_append.mp hc with h1 | h2
        · refine ⟨0, by simp, ?_, ?_⟩
          · rcases hw : fl.arePeopleWaiting with _ | _ <;> rw [hw] at h1 <;>
              simp at h1
            omega
          · rcases hw : fl.arePeopleWaiting with _ | _
            · rw [hw] at h1; simp at h1
            · simp [hw]
        · rcases (ih (i + 1) c).mp h2 with ⟨j, hj, hc2, hw⟩
          exact ⟨j + 1, by simpa using Nat.succ_lt_succ hj, by omega, by simpa using hw⟩
      · rintro ⟨j, hj, rfl, hw⟩
        rcases j with _ | j
        · apply List.mem_append.mpr
          left
          simp only [List.get] at hw
          simp [hw]
        · apply List.mem_append.mpr
          right
          apply (ih (i + 1) (i + (j + 1))).mpr
          exact ⟨j, by simpa using Nat.lt_of_succ_lt_succ hj, by omega, by simpa using hw⟩

def pWait1 : Person :=
  { floor_on := 1, floor_to := 0, p_out := 0, wait_time := 0,
    is_on_elevator := false, is_leaving := false }

def pWait2 : Person :=
  { floor_on := 2, floor_to := 0, p_out := 0, wait_time := 0,
    is_on_elevator := false, is_leaving := false }

def exFloorsC4 : List Floor :=
  [{ people := [], dest_prob := 0 },
   { people := [pWait1], dest_prob := 0 },
   { people := [pWait2], dest_prob := 0 }]

/-- Counterexample to C4 as stated: querying from floor 1 with waiting
people on floors 1 and 2, get_nearest_wait_floor returns (2, 1) even
though floor 1 itself has waiting people at distance 0 < 1 — the 0-valued
distance collides with the loop's 0 "unassigned" sentinel and the later
floor overwrites the closer one. -/
theorem C4_counterexample_own_floor_overwritten :
    getNearestWaitFloor exFloorsC4 1 = (2, 1)
    ∧ arePeopleWaitingOnFloor exFloorsC4 1 = some true
    ∧ natDist 1 1 < (getNearestWaitFloor exFloorsC4 1).2 := by
  refine ⟨rfl, rfl, ?_⟩
  show natDist 1 1 < 1
  simp [natDist]

/-- C4 amended: whenever some floor has waiting people and the querying
floor itself has none, get_nearest_wait_floor returns a pair (f, d) such
that floor f has waiting people and d = |f − floor_on| is minimal (and
positive) over all floors with waiting people. -/
theorem C4_nearest_wait_floor_minimal_off_floor (floors : List Floor)
    (pos : Nat)
    (hpos : ∀ h : pos < floors.length,
      (floors.get ⟨pos, h⟩).arePeopleWaiting = false)
    (j0 : Nat) (hj0 : j0 < floors.length)
    (hw0 : (floors.get ⟨j0, hj0⟩).arePeopleWaiting = true) :
    ∃ f, ∃ hf : f < floors.length,
      getNearestWaitFloor floors pos = (f, natDist pos f)
      ∧ (floors.get ⟨f, hf⟩).arePeopleWaiting = true
      ∧ 0 < natDist pos f
      ∧ ∀ j (hj : j < floors.length),
          (floors.get ⟨j, hj⟩).arePeopleWaiting = true →
            natDist pos f ≤ natDist pos j := by
  have hmemj0 : j0 ∈ waitingIdxFrom 0 floors := by
    apply (mem_waitingIdxFrom floors 0 j0).mpr
    exact ⟨j0, hj0, by omega, hw0⟩
  have hne : waitingIdxFrom 0 floors ≠ [] := by
    intro h
    rw [h] at hmemj0
    exact List.not_mem_nil j0 hmemj0
  have hz : ∀ c ∈ waitingIdxFrom 0 floors, natDist pos c ≠ 0 := by
    intro c hc hd
    rcases (mem_waitingIdxFrom floors 0 c).mp hc with ⟨j, hj, hcj, hw⟩
    have hcj2 : c = j := by omega
    subst hcj2
    have hpc : pos = c := (natDist_eq_zero_iff pos c).mp hd
    subst hpc
    rw [hpos hj] at hw
    exact Bool.false_ne_true hw
  rcases nearestFold_correct pos (waitingIdxFrom 0 floors) hne hz
    with ⟨c, hc, heq, hmin⟩
  rcases (mem_waitingIdxFrom floors 0 c).mp hc with ⟨j, hj, hcj, hw⟩
  have hcj2 : c = j := by omega
  subst hcj2
  refine ⟨c, hj, ?_, hw, ?_, ?_⟩
  · rw [getNearestWaitFloor, nearestWaitLoop_eq_fold, heq]
  · have := hz c hc
    omega
  · intro j2 hj2 hw2
    apply hmin
    apply (mem_waitingIdxFrom floors 0 j2).mpr
    exact ⟨j2, hj2, by omega, hw2⟩

def exFloorsC4W : List Floor :=
  [{ people := [], dest_prob := 0 },
   { people := [pWait1], dest_prob := 0 },
   { people := [pWait2], dest_prob := 0 }]

/-- Witness for the amended C4 at a concrete input: querying from floor 0
(which has nobody waiting) of a building with waiting people on floors 1
and 2. -/
theorem C4_nearest_wait_floor_minimal_off_floor_witness :
    ∃ f, ∃ hf : f < exFloorsC4W.length,
      getNearestWaitFloor exFloorsC4W 0 = (f, natDist 0 f)
      ∧ (exFloorsC4W.get ⟨f, hf⟩).arePeopleWaiting = true
      ∧ 0 < natDist 0 f
      ∧ ∀ j (hj : j < exFloorsC4W.length),
          (exFloorsC4W.get ⟨j, hj⟩).arePeopleWaiting = true →
            natDist 0 f ≤ natDist 0 j :=
  C4_nearest_wait_floor_minimal_off_floor exFloorsC4W 0
    (fun _ => rfl) 1 (by simp [exFloorsC4W]) rfl

/-! ## Claims C9, C10, C6 -/

/-- C9: sampling departure on an occupant who is already leaving is a
no-op, whatever the random draw returns.  For the source
Person::is_leaving (src/person.rs:61), "already leaving" is floor_to = 0
and the person state is unchanged by a resample; for the spec-modelled
gen_is_leaving, the is_leaving = true guard returns the prior state with
the leaving flag still set. -/
theorem C9_resample_leaving_noop (p : Person) :
    (p.floor_to = 0 → ∀ draw, (p.isLeavingSample draw).1 = p)
    ∧ (p.is_leaving = true → ∀ draw,
        (p.genIsLeaving draw).1 = p
        ∧ (p.genIsLeaving draw).1.is_leaving = true
        ∧ (p.genIsLeaving draw).1.floor_to = p.floor_to) := by
  constructor
  · intro h draw
    cases p
    cases draw <;> simp_all [Person.isLeavingSample]
  · intro h draw
    unfold Person.genIsLeaving
    rw [if_pos h]
    exact ⟨rfl, h, rfl⟩

def pLeaver : Person :=
  { floor_on := 0, floor_to := 0, p_out := 0, wait_time := 5,
    is_on_elevator := false, is_leaving := true }

/-- Witness for C9 at a concrete leaving occupant, for both draws of both
sampling operations. -/
theorem C9_resample_leaving_noop_witness :
    (pLeaver.isLeavingSample true).1 = pLeaver
    ∧ (pLeaver.isLeavingSample false).1 = pLeaver
    ∧ (pLeaver.genIsLeaving true).1 = pLeaver
    ∧ (pLeaver.genIsLeaving false).1.is_leaving = true :=
  ⟨(C9_resample_leaving_noop pLeaver).1 rfl true,
   (C9_resample_leaving_noop pLeaver).1 rfl false,
   ((C9_resample_leaving_noop pLeaver).2 rfl true).1,
   ((C9_resample_leaving_noop pLeaver).2 rfl false).2.1⟩

/-- C10: Elevator::update_floor returns a value exactly when the car is
stopped, moving up, or at floor 1 or above; for a down-moving car at
floor 0 the usize decrement underflows (modelled as none). -/
theorem C10_update_floor_totality (e : Elevator) :
    e.updateFloor.isSome = true
      ↔ (e.stopped = true ∨ e.moving_up = true ∨ 1 ≤ e.floor_on) := by
  unfold Elevator.updateFloor
  rcases hs : e.stopped
  · rcases hm : e.moving_up
    · rcases hf : e.floor_on with _ | n
      · simp [hs, hm, hf]
      · simp [hs, hm, hf]
    · simp [hs, hm]
  · simp [hs]

/-- C6 counterexample: a zero-floor configuration is not rejected at
Building construction — Building::from succeeds with num_floors = 0. -/
theorem C6_counterexample_zero_floors_constructs :
    (buildingFrom 0 1 1 5 3 1).isSome = true := by
  norm_num [buildingFrom, poissonNew]

/-- C6 amended: construction-time validation covers only the arrival rate
(Poisson::new's unwrap rejects λ ≤ 0); a probability outside [0,1] is
rejected at Person creation, not Building construction; and a zero floor
count passes construction, the run failing only at the first arrival
generation (Uniform::new(0, 0) and the floors[0] access). -/
theorem C6_construction_validation (nf ne : Nat) (lam eu ed ec : Rat) :
    ((buildingFrom nf ne lam eu ed ec).isSome = true ↔ 0 < lam)
    ∧ (∀ b, buildingFrom 0 ne lam eu ed ec = some b →
        ∀ d ds, b.genPeopleArriving (d :: ds) = none)
    ∧ (∀ q n d, n ≠ 0 → 0 ≤ q → q ≤ 1 → (personFrom q n d).isSome = true)
    ∧ (∀ q n d, n = 0 ∨ ¬(0 ≤ q ∧ q ≤ 1) → personFrom q n d = none) := by
  refine ⟨?_, ?_, ?_, ?_⟩
  · constructor
    · intro hsome
      by_contra hneg
      push_neg at hneg
      simp [buildingFrom, poissonNew, hneg] at hsome
    · intro hpos
      have hn : ¬lam ≤ 0 := not_le.mpr hpos
      simp [buildingFrom, poissonNew, hn]
  · intro b hb d ds
    have hfl : b.floors = [] := by
      rcases hp : poissonNew lam with _ | x
      · simp [buildingFrom, hp] at hb
      · simp [buildingFrom, hp] at hb
        rw [← hb]
    simp [Building.genPeopleArriving, hfl, List.mapM_cons, personFrom]
  · intro q n d hn h0 h1
    simp [personFrom, hn, h0, h1]
  · intro q n d h
    rcases h with h | h
    · simp [personFrom, h]
    · rcases Nat.eq_zero_or_pos n with hn | hn
      · simp [personFrom, hn]
      · simp [personFrom, Nat.pos_iff_ne_zero.mp hn, h]

def bC6 : Building :=
  { elevators := List.replicate 2 (elevatorFrom 5 3 1), floors := [],
    avg_energy := 0, avg_wait_time := 0, wait_time_denom := 0, p_in := 1 }

/-- Witness for the amended C6: λ = 1 with zero floors constructs, its
first arrival generation fails, a valid probability passes Person
creation, and probability 3/2 is rejected there. -/
theorem C6_construction_validation_witness :
    (buildingFrom 0 2 1 5 3 1).isSome = true
    ∧ bC6.genPeopleArriving [0] = none
    ∧ (personFrom (1/20) 4 7).isSome = true
    ∧ personFrom (3/2) 4 7 = none := by
  have h := C6_construction_validation 0 2 1 5 3 1
  refine ⟨h.1.mpr (by norm_num),
    h.2.1 bC6 ?_ 0 [],
    h.2.2.1 (1/20) 4 7 (by norm_num) (by norm_num) (by norm_num),
    h.2.2.2 (3/2) 4 7 (Or.inr (by norm_num))⟩
  norm_num [buildingFrom, poissonNew, bC6]

/-! ## Lemmas: the exchange at stopped cars (claims C1, C2, C8) -/

lemma foldl_wait_time (l : List Person) :
    ∀ a, l.foldl (fun acc p => acc + p.wait_time) a
      = a + (l.map Person.wait_time).sum := by
  induction l with
  | nil => intro a; simp
  | cons p t ih =>
      intro a
      rw [List.foldl_cons, ih]
      simp
      omega

lemma getAggregateWaitTime_eq_sum (l : List Person) :
    getAggregateWaitTime l = (l.map Person.wait_time).sum := by
  rw [getAggregateWaitTime, foldl_wait_time]
  omega

lemma getAggregateWaitTime_map_setOnElevator (l : List Person) (b : Bool) :
    getAggregateWaitTime (l.map (fun p => p.setOnElevator b))
      = getAggregateWaitTime l := by
  rw [getAggregateWaitTime_eq_sum, getAggregateWaitTime_eq_sum, List.map_map]
  rfl

/-- Evaluated form of the per-elevator body of
Building::exchange_people_on_elevator for a stopped elevator whose floor
index is in range. -/
lemma exchangeStep_stopped (floors : List Floor) (avg : Rat) (denom : Nat)
    (e : Elevator) (hs : e.stopped = true) (fl : Floor)
    (hfl : floors.get? e.floor_on = some fl) :
    exchangeStep (floors, avg, denom) e
      = some ((floors.set e.floor_on
                 (Floor.extendWith
                   { fl with people := fl.people.filter (fun p => p.floor_on == p.floor_to) }
                   (resetWaitTimes
                     ((e.people.filter (fun p => p.floor_on == p.floor_to)).map
                       (fun p => p.setOnElevator false)))),
               updateAvgWaitTime avg denom
                 (getAggregateWaitTime (e.people.filter (fun p => p.floor_on == p.floor_to)))
                 (e.people.filter (fun p => p.floor_on == p.floor_to)).length,
               denom + (e.people.filter (fun p => p.floor_on == p.floor_to)).length),
              Elevator.extendWith
                { e with people := e.people.filter (fun p => p.floor_on != p.floor_to) }
                (fl.people.filter (fun p => p.floor_on != p.floor_to))) := by
  rw [exchangeStep]
  simp only [hs, Bool.not_true, Bool.false_eq_true, if_false, hfl,
    flushPeopleEnteringElevator_eq, flushPeopleLeavingElevator_eq,
    Option.bind_eq_bind, Option.some_bind, getNumPeople,
    getAggregateWaitTime_map_setOnElevator, List.length_map]
  rfl

/-- Evaluated form of Building::exchange_people_on_elevator for a
single-elevator building with the elevator stopped at an in-range
floor. -/
lemma exchange_single (b : Building) (e : Elevator)
    (he : b.elevators = [e]) (hs : e.stopped = true) (fl : Floor)
    (hfl : b.floors.get? e.floor_on = some fl) :
    b.exchangePeopleOnElevator
      = some { b with
          floors := b.floors.set e.floor_on
            (Floor.extendWith
              { fl with people := fl.people.filter (fun p => p.floor_on == p.floor_to) }
              (resetWaitTimes
                ((e.people.filter (fun p => p.floor_on == p.floor_to)).map
                  (fun p => p.setOnElevator false)))),
          avg_wait_time := updateAvgWaitTime b.avg_wait_time b.wait_time_denom
            (getAggregateWaitTime (e.people.filter (fun p => p.floor_on == p.floor_to)))
            (e.people.filter (fun p => p.floor_on == p.floor_to)).length,
          wait_time_denom :=
            b.wait_time_denom + (e.people.filter (fun p => p.floor_on == p.floor_to)).length,
          elevators := [Elevator.extendWith
            { e with people := e.people.filter (fun p => p.floor_on != p.floor_to) }
            (fl.people.filter (fun p => p.floor_on != p.floor_to))] } := by
  rw [Building.exchangePeopleOnElevator, he]
  rw [List.foldlM_cons]
  rw [exchangeStep_stopped b.floors b.avg_wait_time b.wait_time_denom e hs fl hfl]
  simp only [Option.bind_eq_bind, Option.some_bind, List.foldlM_nil,
    Option.pure_def, Option.some_bind]
  rfl

/-- C2: for a stopped car processed by exchange_people_on_elevator, the
running average wait time becomes (alighted wait sum + old average × prior
count) / (alighted count + prior count), short-circuited to 0 when the
denominator is 0 (so no NaN can arise), and the prior count advances by
the alighted count. -/
theorem C2_avg_wait_time_running_mean (b : Building) (e : Elevator)
    (he : b.elevators = [e]) (hs : e.stopped = true)
    (fl : Floor) (hfl : b.floors.get? e.floor_on = some fl) :
    ∃ b1, b.exchangePeopleOnElevator = some b1
    ∧ b1.avg_wait_time =
        (if ((e.people.filter (fun p => p.floor_on == p.floor_to)).length : Rat)
              + (b.wait_time_denom : Rat) = 0 then 0
         else ((getAggregateWaitTime (e.people.filter (fun p => p.floor_on == p.floor_to)) : Rat)
                + b.avg_wait_time * (b.wait_time_denom : Rat))
              / (((e.people.filter (fun p => p.floor_on == p.floor_to)).length : Rat)
                  + (b.wait_time_denom : Rat)))
    ∧ b1.wait_time_denom
        = b.wait_time_denom + (e.people.filter (fun p => p.floor_on == p.floor_to)).length := by
  refine ⟨_, exchange_single b e he hs fl hfl, ?_, rfl⟩
  show updateAvgWaitTime b.avg_wait_time b.wait_time_denom _ _ = _
  rw [updateAvgWaitTime]

def pAlight3 : Person :=
  { floor_on := 1, floor_to := 1, p_out := 0, wait_time := 3,
    is_on_elevator := false, is_leaving := false }

def eC2 : Elevator :=
  { people := [pAlight3], energy_up := 5, energy_down := 3, energy_coef := 1,
    floor_on := 1, moving_up := false, stopped := true }

def bC2 : Building :=
  { elevators := [eC2],
    floors := [{ people := [], dest_prob := 0 }, { people := [], dest_prob := 0 }],
    avg_energy := 0, avg_wait_time := 0, wait_time_denom := 0, p_in := 1 }

/-- Witness for C2: the first occupant ever flushed waited exactly 3 steps
and alights alone, so avg_wait_time becomes exactly (3 + 0·0)/(1 + 0) = 3. -/
theorem C2_avg_wait_time_running_mean_witness :
    ∃ b1, bC2.exchangePeopleOnElevator = some b1
      ∧ b1.avg_wait_time = 3 ∧ b1.wait_time_denom = 1 := by
  obtain ⟨b1, h1, h2, h3⟩ :=
    C2_avg_wait_time_running_mean bC2 eC2 rfl rfl { people := [], dest_prob := 0 } rfl
  refine ⟨b1, h1, ?_, ?_⟩
  · rw [h2]
    norm_num [bC2, eC2, pAlight3, getAggregateWaitTime, List.filter]
  · rw [h3]
    norm_num [bC2, eC2, pAlight3, List.filter]

def pxW : Person :=
  { floor_on := 0, floor_to := 1, p_out := 0, wait_time := 2,
    is_on_elevator := false, is_leaving := false }

def eC1 : Elevator := elevatorFrom 5 3 1

def bC1 : Building :=
  { elevators := [eC1],
    floors := [{ people := [pxW], dest_prob := 0 }, { people := [], dest_prob := 0 }],
    avg_energy := 0, avg_wait_time := 0, wait_time_denom := 0, p_in := 1 }

/-- C1 at its failing input: a waiting occupant absorbed into a stopped
car by exchange_people_on_elevator still has is_on_elevator = false right
after the exchange (the Extend impl for Elevator only pushes, and
set_on_elevator(true) is never called on boarding), even though the
floor_on half of the invariant does hold. -/
theorem C1_boarded_rider_flag_not_set :
    ∃ b1 e1, bC1.exchangePeopleOnElevator = some b1
    ∧ b1.elevators = [e1]
    ∧ e1.people = [pxW]
    ∧ pxW.is_on_elevator = false
    ∧ pxW.floor_on = e1.floor_on := by
  refine ⟨_, _, exchange_single bC1 eC1 rfl rfl { people := [pxW], dest_prob := 0 } rfl,
    rfl, ?_, rfl, rfl⟩
  show Elevator.people (Elevator.extendWith _ _) = [pxW]
  simp [Elevator.extendWith, eC1, elevatorFrom, pxW, List.filter]

/-- C8: after the exchange at a stopped ground-floor car followed by the
ground-floor egress, the ground floor holds exactly the non-leaving
members of (the floor's non-waiting occupants ++ the just-alighted
occupants): nobody with leaving = true survives — in particular an
occupant who alighted this very step and wants to leave is gone — and
every non-leaving occupant of the original floor is still owned by the
floor or by the car, never discarded. -/
theorem C8_ground_egress_after_exchange (b : Building) (e : Elevator)
    (he : b.elevators = [e]) (hs : e.stopped = true) (h0 : e.floor_on = 0)
    (fl0 : Floor) (hfl : b.floors.get? 0 = some fl0) :
    ∃ b1 fl1 e1, b.exchangeThenEgress = some b1
    ∧ b1.floors.get? 0 = some fl1
    ∧ b1.elevators = [e1]
    ∧ fl1.people
        = (fl0.people.filter (fun p => p.floor_on == p.floor_to)
            ++ resetWaitTimes
                ((e.people.filter (fun p => p.floor_on == p.floor_to)).map
                  (fun p => p.setOnElevator false))).filter
            (fun p => !p.is_leaving)
    ∧ (∀ p ∈ fl1.people, p.is_leaving = false)
    ∧ (∀ p ∈ e.people, p.is_leaving = true →
        Person.resetWaitTime (p.setOnElevator false) ∉ fl1.people)
    ∧ (∀ p ∈ fl0.people, p.is_leaving = false →
        p ∈ fl1.people ∨ p ∈ e1.people) := by
  have hfl2 : b.floors.get? e.floor_on = some fl0 := by rw [h0]; exact hfl
  have hx := exchange_single b e he hs fl0 hfl2
  have hlen0 : 0 < b.floors.length := by
    by_contra hneg
    push_neg at hneg
    rw [List.get?_eq_none.mpr (by omega)] at hfl
    exact Option.noConfusion hfl
  set keptFloor := fl0.people.filter (fun p => p.floor_on == p.floor_to) with hkept
  set alighted := resetWaitTimes
    ((e.people.filter (fun p => p.floor_on == p.floor_to)).map
      (fun p => p.setOnElevator false)) with halight
  set boarders := fl0.people.filter (fun p => p.floor_on != p.floor_to) with hboard
  set flMid : Floor := Floor.extendWith
    { fl0 with people := keptFloor } alighted with hflMid
  set eMid : Elevator := Elevator.extendWith
    { e with people := e.people.filter (fun p => p.floor_on != p.floor_to) }
    boarders with heMid
  have hset : (b.floors.set e.floor_on flMid).get? 0 = some flMid := by
    rw [h0, List.get?_eq_getElem?]
    exact List.getElem?_set_eq_of_lt flMid (by simpa using hlen0)
  have hstep : b.exchangeThenEgress
      = some { b with
          floors := (b.floors.set e.floor_on flMid).set 0
            flMid.flushPeopleLeavingFloor,
          avg_wait_time := updateAvgWaitTime b.avg_wait_time b.wait_time_denom
            (getAggregateWaitTime (e.people.filter (fun p => p.floor_on == p.floor_to)))
            (e.people.filter (fun p => p.floor_on == p.floor_to)).length,
          wait_time_denom :=
            b.wait_time_denom
              + (e.people.filter (fun p => p.floor_on == p.floor_to)).length,
          elevators := [eMid] } := by
    rw [Building.exchangeThenEgress, hx]
    simp only [Option.bind_eq_bind, Option.some_bind]
    rw [flushFirstFloor, hset]
    simp only [Option.bind_eq_bind, Option.some_bind]
    rfl
  refine ⟨_, flMid.flushPeopleLeavingFloor, eMid, hstep, ?_, rfl, ?_, ?_, ?_, ?_⟩
  · show ((b.floors.set e.floor_on flMid).set 0
        flMid.flushPeopleLeavingFloor).get? 0 = _
    rw [List.get?_eq_getElem?]
    exact List.getElem?_set_eq_of_lt _ (by simpa using hlen0)
  · show (Floor.flushPeopleLeavingFloor flMid).people = _
    simp only [Floor.flushPeopleLeavingFloor, hflMid, Floor.extendWith]
  · intro p hp
    have := List.of_mem_filter hp
    simpa using this
  · intro p hp hleave
    intro hmem
    have := List.of_mem_filter hmem
    simp only [Bool.not_eq_true'] at this
    rw [show (Person.resetWaitTime (p.setOnElevator false)).is_leaving = p.is_leaving
        from rfl] at this
    rw [hleave] at this
    exact Bool.noConfusion this
  · intro p hp hnl
    by_cases hw : p.floor_on = p.floor_to
    · left
      show p ∈ (flMid.people).filter (fun p => !p.is_leaving)
      apply List.mem_filter.mpr
      refine ⟨?_, by simp [hnl]⟩
      show p ∈ keptFloor ++ alighted
      apply List.mem_append.mpr
      left
      exact List.mem_filter.mpr ⟨hp, by simp [hw]⟩
    · right
      show p ∈ eMid.people
      simp only [heMid, Elevator.extendWith]
      apply List.mem_append.mpr
      right
      exact List.mem_filter.mpr ⟨hp, by simp [hw]⟩

def pBoardW : Person :=
  { floor_on := 0, floor_to := 2, p_out := 0, wait_time := 1,
    is_on_elevator := false, is_leaving := false }

def pLeaveAlight : Person :=
  { floor_on := 0, floor_to := 0, p_out := 0, wait_time := 4,
    is_on_elevator := false, is_leaving := true }

def flC8 : Floor := { people := [pBoardW], dest_prob := 0 }

def eC8 : Elevator :=
  { people := [pLeaveAlight], energy_up := 5, energy_down := 3,
    energy_coef := 1, floor_on := 0, moving_up := false, stopped := true }

def bC8 : Building :=
  { elevators := [eC8],
    floors := [flC8, { people := [], dest_prob := 0 }],
    avg_energy := 0, avg_wait_time := 0, wait_time_denom := 0, p_in := 1 }

/-- Witness for C8 at a concrete scenario: a leaving occupant alights from
the ground-floor car in the same step in which a waiting occupant boards;
the leaver is gone from the ground floor, the boarder is in the car. -/
theorem C8_ground_egress_after_exchange_witness :
    ∃ b1 fl1 e1, bC8.exchangeThenEgress = some b1
    ∧ b1.floors.get? 0 = some fl1
    ∧ b1.elevators = [e1]
    ∧ fl1.people
        = (flC8.people.filter (fun p => p.floor_on == p.floor_to)
            ++ resetWaitTimes
                ((eC8.people.filter (fun p => p.floor_on == p.floor_to)).map
                  (fun p => p.setOnElevator false))).filter
            (fun p => !p.is_leaving)
    ∧ (∀ p ∈ fl1.people, p.is_leaving = false)
    ∧ (∀ p ∈ eC8.people, p.is_leaving = true →
        Person.resetWaitTime (p.setOnElevator false) ∉ fl1.people)
    ∧ (∀ p ∈ flC8.people, p.is_leaving = false →
        p ∈ fl1.people ∨ p ∈ e1.people) :=
  C8_ground_egress_after_exchange bC8 eC8 rfl rfl rfl flC8 rfl

/-! ## Lemmas: the nearest-policy dispatch step (claim C5) -/

lemma applyDecision_up (e : Elevator) :
    applyDecision e 1
      = some { e with
          stopped := false, moving_up := true,
          floor_on := e.floor_on + 1,
          people := e.people.map (fun p => p.setFloorOn (e.floor_on + 1)) } := by
  norm_num [applyDecision, Elevator.updateFloor]

lemma applyDecision_down (e : Elevator) (h : e.floor_on ≠ 0) :
    applyDecision e (-1)
      = some { e with
          stopped := false, moving_up := false,
          floor_on := e.floor_on - 1,
          people := e.people.map (fun p => p.setFloorOn (e.floor_on - 1)) } := by
  norm_num [applyDecision, Elevator.updateFloor, h]

lemma applyDecision_stop (e : Elevator) :
    applyDecision e 0 = some { e with stopped := true } := by
  norm_num [applyDecision, Elevator.updateFloor]

lemma getNearestDestFloor_cases (e : Elevator) :
    e.getNearestDestFloor = (0, 0)
    ∨ ∃ p ∈ e.people,
        e.getNearestDestFloor = (p.floor_to, natDist e.floor_on p.floor_to) := by
  rcases nearestFold_cases e.floor_on (e.people.map Person.floor_to) (0, 0)
    with h | ⟨c, hc, h⟩
  · exact Or.inl h
  · rcases List.mem_map.mp hc with ⟨p, hp, rfl⟩
    exact Or.inr ⟨p, hp, h⟩

lemma getNearestWaitFloor_cases (floors : List Floor) (pos : Nat) :
    getNearestWaitFloor floors pos = (0, 0)
    ∨ ∃ j, ∃ hj : j < floors.length,
        getNearestWaitFloor floors pos = (j, natDist pos j)
        ∧ (floors.get ⟨j, hj⟩).arePeopleWaiting = true := by
  rw [getNearestWaitFloor, nearestWaitLoop_eq_fold]
  rcases nearestFold_cases pos (waitingIdxFrom 0 floors) (0, 0) with h | ⟨c, hc, h⟩
  · exact Or.inl h
  · right
    rcases (mem_waitingIdxFrom floors 0 c).mp hc with ⟨j, hj, hcj, hw⟩
    have hcj2 : c = j := by omega
    subst hcj2
    exact ⟨c, hj, h, hw⟩

/-- One elevator under the nearest-policy step: the decision and its
application always succeed for an in-range elevator whose riders' targets
are in range, the new floor is in range, and a moving elevator at either
boundary is force-stopped with its floor unchanged. -/
lemma nearestStep_elevator (floors : List Floor) (e : Elevator)
    (hf : e.floor_on < floors.length)
    (hdest : ∀ p ∈ e.people, p.floor_to < floors.length) :
    ∃ d e1, nearestDecision floors e = some d
      ∧ applyDecision e d = some e1
      ∧ e1.floor_on < floors.length
      ∧ (e.stopped = false → e.moving_up = false → e.floor_on = 0 →
          e1.stopped = true ∧ e1.floor_on = e.floor_on)
      ∧ (e.stopped = false → e.moving_up = true →
          e.floor_on = floors.length - 1 →
          e1.stopped = true ∧ e1.floor_on = e.floor_on) := by
  rcases hs : e.stopped with _ | _
  · -- moving elevator
    rcases hget : floors[e.floor_on]? with _ | flh
    · exact absurd (List.getElem?_eq_none_iff.mp hget) (by omega)
    rcases hm : e.moving_up with _ | _
    · -- moving down
      by_cases h0 : e.floor_on = 0
      · refine ⟨0, _, ?_, applyDecision_stop e, ?_, ?_, ?_⟩
        · simp [nearestDecision, hs, hm, h0]
        · show e.floor_on < floors.length
          exact hf
        · intro _ _ _
          exact ⟨rfl, rfl⟩
        · simp [hm]
      · rcases hw : flh.arePeopleWaiting with _ | _
        · rcases hg : e.arePeopleGoingToFloor e.floor_on with _ | _
          · refine ⟨-1, _, ?_, applyDecision_down e h0, ?_, ?_, ?_⟩
            · simp [nearestDecision, hs, hm, h0, arePeopleWaitingOnFloor,
                hget, hw, hg]
            · show e.floor_on - 1 < floors.length
              omega
            · intro _ _ hcon
              exact absurd hcon h0
            · simp [hm]
          · refine ⟨0, _, ?_, applyDecision_stop e, ?_, ?_, ?_⟩
            · simp [nearestDecision, hs, hm, h0, arePeopleWaitingOnFloor,
                hget, hw, hg]
            · show e.floor_on < floors.length
              exact hf
            · intro _ _ _
              exact ⟨rfl, rfl⟩
            · simp [hm]
        · refine ⟨0, _, ?_, applyDecision_stop e, ?_, ?_, ?_⟩
          · simp [nearestDecision, hs, hm, h0, arePeopleWaitingOnFloor,
              hget, hw]
          · show e.floor_on < floors.length
            exact hf
          · intro _ _ _
            exact ⟨rfl, rfl⟩
          · simp [hm]
    · -- moving up
      by_cases htop : e.floor_on = floors.length - 1
      · refine ⟨0, _, ?_, applyDecision_stop e, ?_, ?_, ?_⟩
        · simp [nearestDecision, hs, hm, htop]
        · show e.floor_on < floors.length
          exact hf
        · simp [hm]
        · intro _ _ _
          exact ⟨rfl, rfl⟩
      · rcases hw : flh.arePeopleWaiting with _ | _
        · rcases hg : e.arePeopleGoingToFloor e.floor_on with _ | _
          · refine ⟨1, _, ?_, applyDecision_up e, ?_, ?_, ?_⟩
            · simp [nearestDecision, hs, hm, htop, arePeopleWaitingOnFloor,
                hget, hw, hg]
            · show e.floor_on + 1 < floors.length
              omega
            · simp [hm]
            · intro _ _ hcon
              exact absurd hcon htop
          · refine ⟨0, _, ?_, applyDecision_stop e, ?_, ?_, ?_⟩
            · simp [nearestDecision, hs, hm, htop, arePeopleWaitingOnFloor,
                hget, hw, hg]
            · show e.floor_on < floors.length
              exact hf
            · simp [hm]
            · intro _ _ _
              exact ⟨rfl, rfl⟩
        · refine ⟨0, _, ?_, applyDecision_stop e, ?_, ?_, ?_⟩
          · simp [nearestDecision, hs, hm, htop, arePeopleWaitingOnFloor,
              hget, hw]
          · show e.floor_on < floors.length
            exact hf
          · simp [hm]
          · intro _ _ _
            exact ⟨rfl, rfl⟩
  · -- stopped elevator: the boundary clauses are vacuous
    by_cases hd2 : e.getNearestDestFloor.2 ≠ 0
    · rcases getNearestDestFloor_cases e with hcase | ⟨p, hp, hcase⟩
      · rw [hcase] at hd2
        simp at hd2
      · have hc_lt : p.floor_to < floors.length := hdest p hp
        have hdist : natDist e.floor_on p.floor_to ≠ 0 := by
          rw [hcase] at hd2
          exact hd2
        have hne : e.floor_on ≠ p.floor_to := by
          intro hcon
          exact hdist ((natDist_eq_zero_iff _ _).mpr hcon)
        by_cases hgt : p.floor_to > e.floor_on
        · refine ⟨1, _, ?_, applyDecision_up e, ?_, by simp [hs], by simp [hs]⟩
          · simp [nearestDecision, hs, hcase, hdist, hgt]
          · show e.floor_on + 1 < floors.length
            omega
        · refine ⟨-1, _, ?_, applyDecision_down e (by omega), ?_,
            by simp [hs], by simp [hs]⟩
          · simp [nearestDecision, hs, hcase, hdist, hgt]
          · show e.floor_on - 1 < floors.length
            omega
    · push_neg at hd2
      by_cases hw2 : (getNearestWaitFloor floors e.floor_on).2 ≠ 0
      · rcases getNearestWaitFloor_cases floors e.floor_on
          with hcase | ⟨j, hj, hcase, hwj⟩
        · rw [hcase] at hw2
          simp at hw2
        · have hdist : natDist e.floor_on j ≠ 0 := by
            rw [hcase] at hw2
            exact hw2
          have hne : e.floor_on ≠ j := by
            intro hcon
            exact hdist ((natDist_eq_zero_iff _ _).mpr hcon)
          by_cases hgt : j > e.floor_on
          · refine ⟨1, _, ?_, applyDecision_up e, ?_, by simp [hs], by simp [hs]⟩
            · simp [nearestDecision, hs, hd2, hcase, hdist, hgt]
            · show e.floor_on + 1 < floors.length
              omega
          · refine ⟨-1, _, ?_, applyDecision_down e (by omega), ?_,
              by simp [hs], by simp [hs]⟩
            · simp [nearestDecision, hs, hd2, hcase, hdist, hgt]
            · show e.floor_on - 1 < floors.length
              omega
      · push_neg at hw2
        refine ⟨0, _, ?_, applyDecision_stop e, ?_, by simp [hs], by simp [hs]⟩
        · simp [nearestDecision, hs, hd2, hw2]
        · show e.floor_on < floors.length
          exact hf

lemma nearestStep_list (floors : List Floor) :
    ∀ es : List Elevator,
      (∀ e ∈ es, e.floor_on < floors.length
        ∧ ∀ p ∈ e.people, p.floor_to < floors.length) →
      ∃ ds, es.mapM (nearestDecision floors) = some ds
      ∧ ∃ es1, (es.zip ds).mapM (fun ed => applyDecision ed.1 ed.2) = some es1
      ∧ List.Forall₂ (fun e e1 =>
          e1.floor_on < floors.length
          ∧ (e.stopped = false → e.moving_up = false → e.floor_on = 0 →
              e1.stopped = true ∧ e1.floor_on = e.floor_on)
          ∧ (e.stopped = false → e.moving_up = true →
              e.floor_on = floors.length - 1 →
              e1.stopped = true ∧ e1.floor_on = e.floor_on)) es es1 := by
  intro es
  induction es with
  | nil => intro _; exact ⟨[], rfl, [], rfl, List.Forall₂.nil⟩
  | cons e rest ih =>
      intro h
      obtain ⟨d, e1, hd, happ, hfl, hb1, hb2⟩ :=
        nearestStep_elevator floors e (h e (by simp)).1 (h e (by simp)).2
      obtain ⟨ds, hds, es1, hes1, hforall⟩ := ih (fun x hx => h x (by simp [hx]))
      refine ⟨d :: ds, ?_, e1 :: es1, ?_,
        List.Forall₂.cons ⟨hfl, hb1, hb2⟩ hforall⟩
      · rw [List.mapM_cons, hd, hds]
        rfl
      · rw [List.zip_cons_cons, List.mapM_cons, happ, hes1]
        rfl

/-- C5: under the nearest-policy dispatch step, every decision and
movement succeeds, the floors are untouched, every car's floor stays in
[0, numFloors−1], and a moving car at a boundary floor (floor 0 moving
down, or the top floor moving up) is force-stopped with its floor
unchanged. -/
theorem C5_nearest_dispatch_range_and_boundary (b : Building)
    (hfl : ∀ e ∈ b.elevators, e.floor_on < b.floors.length
        ∧ ∀ p ∈ e.people, p.floor_to < b.floors.length) :
    ∃ b1, nearestUpdateElevators b = some b1
    ∧ b1.floors = b.floors
    ∧ List.Forall₂ (fun e e1 =>
        e1.floor_on < b.floors.length
        ∧ (e.stopped = false → e.moving_up = false → e.floor_on = 0 →
            e1.stopped = true ∧ e1.floor_on = e.floor_on)
        ∧ (e.stopped = false → e.moving_up = true →
            e.floor_on = b.floors.length - 1 →
            e1.stopped = true ∧ e1.floor_on = e.floor_on))
        b.elevators b1.elevators := by
  obtain ⟨ds, hds, es1, hes1, hforall⟩ := nearestStep_list b.floors b.elevators hfl
  refine ⟨{ b with elevators := es1 }, ?_, rfl, hforall⟩
  rw [nearestUpdateElevators, hds]
  simp only [Option.bind_eq_bind, Option.some_bind]
  rw [hes1]
  rfl

def eW : Elevator :=
  { people := [], energy_up := 5, energy_down := 3, energy_coef := 1,
    floor_on := 1, moving_up := true, stopped := false }

def bW : Building :=
  { elevators := [eW], floors := [Floor.new, Floor.new],
    avg_energy := 0, avg_wait_time := 0, wait_time_denom := 0, p_in := 1 }

/-- Witness for C5 at a concrete building: one car moving up at the top
floor of a two-floor building. -/
theorem C5_nearest_dispatch_range_and_boundary_witness :
    ∃ b1, nearestUpdateElevators bW = some b1
    ∧ b1.floors = bW.floors
    ∧ List.Forall₂ (fun e e1 =>
        e1.floor_on < bW.floors.length
        ∧ (e.stopped = false → e.moving_up = false → e.floor_on = 0 →
            e1.stopped = true ∧ e1.floor_on = e.floor_on)
        ∧ (e.stopped = false → e.moving_up = true →
            e.floor_on = bW.floors.length - 1 →
            e1.stopped = true ∧ e1.floor_on = e.floor_on))
        bW.elevators b1.elevators :=
  C5_nearest_dispatch_range_and_boundary bW (by
    intro e he
    simp only [bW, List.mem_cons, List.not_mem_nil, or_false] at he
    subst he
    refine ⟨by norm_num [eW, bW], ?_⟩
    intro p hp
    simp [eW] at hp)

end ElevatorSim
